import Mathlib

/-
Verification of the react-grab-vscode browser-extension core against its
specification.

The embedding models the page-context inject script
(browser-extension/public/inject.js) and the content script
(browser-extension/src/content/types.ts):

* a store-based model of JavaScript values (`JSVal`, `HeapObj`, `Heap`) so
  that cyclic object graphs are representable;
* the property sanitizer `sanitizeProps` / inner `sanitize` (inject.js
  lines 156-225), threading the shared WeakSet (`seen`) explicitly;
* the JSX generator `generateJSX` (inject.js lines 284-326) over sanitized
  values, with a model of JSON.stringify for sanitized output;
* the fiber resolver `getFiberFromElement` / `isValidComponent` /
  `getComponentName` / `findComponentFiber` / `getComponentInfo`
  (inject.js lines 40-252);
* the relay client `getConnectedWorkspaces` / `sendToVSCode`
  (types.ts lines 1411-1449) and the connection lifecycle of
  `connectToPort` / polling (types.ts lines 1370-1402, 1471-1476);
* the interaction state machine of the content script (grab mode,
  hover request ids, overlay) as an explicit step function over events
  (types.ts lines 1596-1762).
-/

/-! # JavaScript value model -/

/-- An immediate JavaScript value.  Composite values live on a heap and are
denoted by `ref`; functions and symbols are never recursed into by the
sanitizer, so their identity is summarized by name/description. -/
inductive JSVal where
  | null
  | undef
  | bool (b : Bool)
  | num (n : Int)
  | str (s : String)
  | func (name : String)
  | sym (description : String)
  | ref (a : Nat)
deriving DecidableEq, Repr

/-- The `type` field of a React element object (`value.$$typeof` present):
a function (with optional `displayName` and a `name`), a string tag, or
anything else. -/
inductive RType where
  | fn (displayName : Option String) (name : String)
  | str (s : String)
  | other
deriving DecidableEq, Repr

/-- A heap object: an array, a plain object (ordered own enumerable fields),
a React element (an object with a truthy `$$typeof`), or a DOM node
(`instanceof Element || instanceof Node`). -/
inductive HeapObj where
  | arr (elems : List JSVal)
  | obj (fields : List (String × JSVal))
  | reactElem (ty : RType)
  | domNode
deriving DecidableEq, Repr

/-- A total heap: every address denotes some object, so arbitrary (also
cyclic) object graphs are representable. -/
abbrev Heap := Nat → HeapObj

/-- JavaScript `s.startsWith(p)`, computed on the character list so that the
kernel can evaluate it (Lean's own `String.startsWith` does not reduce). -/
def jsStartsWith (s p : String) : Bool := p.data.isPrefixOf s.data

/-- JavaScript `s.trim()` (whitespace stripped from both ends). -/
def jsTrim (s : String) : String :=
  ⟨((s.data.dropWhile Char.isWhitespace).reverse.dropWhile Char.isWhitespace).reverse⟩

/-- JavaScript `s.slice(0, n)`. -/
def jsTake (s : String) (n : Nat) : String := ⟨s.data.take n⟩

/-- JavaScript truthiness filter on an optional string: the empty string is
falsy, so `a || b` chains skip it. -/
def truthyStr : Option String → Option String
  | some s => if s = "" then none else some s
  | none => none

/-- Type name of a React element, inject.js lines 184-188:
`typeof t === 'function' ? (t.displayName || t.name || 'Component')
: (typeof t === 'string' ? t : 'Element')`. -/
def reactTypeName : RType → String
  | .fn d n => (((truthyStr d).orElse (fun _ => truthyStr (some n))).getD "Component")
  | .str s => s
  | .other => "Element"

/-! # Sanitized values -/

/-- A primitive sanitized value. -/
inductive OutPrim where
  | null
  | undef
  | bool (b : Bool)
  | num (n : Int)
  | str (s : String)
deriving DecidableEq, Repr

/-- The result type of the sanitizer.  The `ref` constructor stands for a
live reference back into the original object graph; the sanitizer is proved
never to produce one (`sanitize_total_bounded_noRefs`). -/
inductive OutVal where
  | prim (p : OutPrim)
  | ref (a : Nat)
  | list (xs : List OutVal)
  | map (fields : List (String × OutVal))

mutual

/-- Does a sanitized value contain a live reference into the heap? -/
def OutVal.hasRef : OutVal → Bool
  | .prim _ => false
  | .ref _ => true
  | .list xs => hasRefList xs
  | .map fs => hasRefFields fs

def hasRefList : List OutVal → Bool
  | [] => false
  | x :: xs => x.hasRef || hasRefList xs

def hasRefFields : List (String × OutVal) → Bool
  | [] => false
  | kv :: fs => kv.2.hasRef || hasRefFields fs

end

/-- A sanitized value can be fed to JSON.stringify without observing the
original object graph exactly when it holds no live reference. -/
def jsonSerializable (v : OutVal) : Bool := !v.hasRef

mutual

/-- Number of constructors in a sanitized value (its structural size). -/
def nodes : OutVal → Nat
  | .prim _ => 1
  | .ref _ => 1
  | .list xs => 1 + nodesList xs
  | .map fs => 1 + nodesFields fs

def nodesList : List OutVal → Nat
  | [] => 0
  | x :: xs => nodes x + nodesList xs

def nodesFields : List (String × OutVal) → Nat
  | [] => 0
  | kv :: fs => nodes kv.2 + nodesFields fs

end

/-- Placeholder for a function value, inject.js line 167:
``ƒ ${value.name || 'anonymous'}()``. -/
def functionLabel (name : String) : String :=
  "ƒ " ++ (if name = "" then "anonymous" else name) ++ "()"

/-! # The property sanitizer (inject.js lines 156-225)

The inner `sanitize` closure is modelled by `sanitizeF`.  The mutated
`WeakSet` `seen` is threaded explicitly: every function returns the updated
set together with its result (the JS code shares one `seen` across the whole
`sanitizeProps` call, including across siblings).

`fuel` is an upper bound on the remaining recursion just to make the
definition structural; the source recursion is bounded by the
`depth > maxDepth` check alone, and the entry points supply
`fuel = maxDepth + 2 - depth`, which is never exhausted before the depth
check fires (any call at `depth ≤ maxDepth` has `fuel ≥ 2`). -/

def sanitizeF (h : Heap) (maxDepth fuel depth : Nat) (seen : List Nat) (v : JSVal) :
    OutVal × List Nat :=
  if depth > maxDepth then (.prim (.str "[...]"), seen)
  else
    match fuel with
      | 0 => (.prim (.str "[...]"), seen)
      | fuel' + 1 =>
        match v with
        | .null => (.prim .null, seen)
        | .undef => (.prim .undef, seen)
        | .func name => (.prim (.str (functionLabel name)), seen)
        | .sym d => (.prim (.str ("Symbol(" ++ d ++ ")")), seen)
        | .bool b => (.prim (.bool b), seen)
        | .num n => (.prim (.num n), seen)
        | .str s => (.prim (.str s), seen)
        | .ref a =>
          match h a with
          | .domNode => (.prim (.str "[DOM]"), seen)
          | .reactElem ty =>
            if a ∈ seen then (.prim (.str "[Circular]"), seen)
            else (.prim (.str ("<" ++ reactTypeName ty ++ " />")), a :: seen)
          | .arr xs =>
            if a ∈ seen then (.prim (.str "[Circular]"), seen)
            else
              let r := (if xs.length > 5 then xs.take 5 else xs).foldl
                (fun (acc : List OutVal × List Nat) x =>
                  let r1 := sanitizeF h maxDepth fuel' (depth + 1) acc.2 x
                  (acc.1 ++ [r1.1], r1.2))
                ([], a :: seen)
              if xs.length > 5 then
                (.list (r.1 ++ [.prim (.str ("..." ++ toString (xs.length - 5) ++ " more"))]), r.2)
              else
                (.list r.1, r.2)
          | .obj fs =>
            if a ∈ seen then (.prim (.str "[Circular]"), seen)
            else
              let r := (fs.take 10).foldl
                (fun (acc : List (String × OutVal) × List Nat) kv =>
                  if jsStartsWith kv.1 "_" then acc
                  else
                    let r1 := sanitizeF h maxDepth fuel' (depth + 1) acc.2 kv.2
                    (acc.1 ++ [(kv.1, r1.1)], r1.2))
                ([], a :: seen)
              if fs.length > 10 then
                (.map (r.1 ++ [("...", .prim (.str (toString (fs.length - 10) ++ " more")))]), r.2)
              else
                (.map r.1, r.2)

/-- The inner recursive sanitizer at a given depth (inject.js line 161),
with enough fuel that the fuel bound is never the reason for truncation. -/
def sanitize (h : Heap) (maxDepth depth : Nat) (seen : List Nat) (v : JSVal) : OutVal × List Nat :=
  sanitizeF h maxDepth (maxDepth + 2 - depth) depth seen v

/-- `Object.entries(value)` for a heap object.  DOM nodes and React elements
are modelled as having no own enumerable entries (the source only ever
passes a fiber's `memoizedProps`, a plain object, to `sanitizeProps`). -/
def entriesOf : HeapObj → List (String × JSVal)
  | .obj fs => fs
  | .arr xs => xs.enum.map (fun p => (toString p.1, p.2))
  | .reactElem _ => []
  | .domNode => []

/-- `sanitizeProps(props, maxDepth = 3)`, inject.js lines 156-225: the
top-level entry iterates all entries (no breadth bound here), drops the
`children` key and `_`-prefixed keys, and sanitizes each remaining value at
depth 0 against one shared seen set. -/
def sanitizeProps (h : Heap) (maxDepth : Nat) (props : JSVal) : List (String × OutVal) :=
  match props with
  | .ref a =>
    ((entriesOf (h a)).foldl
      (fun (acc : List (String × OutVal) × List Nat) kv =>
        if kv.1 != "children" && !(jsStartsWith kv.1 "_") then
          let r := sanitizeF h maxDepth (maxDepth + 2) 0 acc.2 kv.2
          (acc.1 ++ [(kv.1, r.1)], r.2)
        else acc)
      ([], [])).1
  | _ => []

/-- Size bound for a sanitized subtree with `n` depth levels remaining:
each composite level keeps at most 10 entries plus one summary marker. -/
def sizeBound : Nat → Nat
  | 0 => 1
  | n + 1 => 1 + 11 * sizeBound n

/-! # JSON.stringify for sanitized values (used by generateJSX, line 300)

Sanitized values contain no live references (proved below), so the model
only needs JSON semantics on trees: `undefined` becomes `null` in array
positions and is dropped from objects. -/

/-- Is a sanitized value the `undefined` primitive? -/
def OutVal.isUndef : OutVal → Bool
  | .prim .undef => true
  | _ => false

/-- JSON string escaping (quote and backslash; the repository's values never
contain control characters). -/
def jsonEscape (s : String) : String :=
  ⟨s.data.foldl (fun acc c =>
    acc ++ (if c = '"' then ['\\', '"'] else if c = '\\' then ['\\', '\\'] else [c])) []⟩

mutual

/-- `JSON.stringify(v)` for a sanitized value. The `ref` case is unreachable
for sanitizer output (`sanitize_total_bounded_noRefs`). -/
def jsonStringify : OutVal → String
  | .prim .null => "null"
  | .prim .undef => "null"
  | .prim (.bool b) => if b then "true" else "false"
  | .prim (.num n) => toString n
  | .prim (.str s) => "\"" ++ jsonEscape s ++ "\""
  | .ref _ => "null"
  | .list xs => "[" ++ String.intercalate "," (jsonListPieces xs) ++ "]"
  | .map fs => "\x7b" ++ String.intercalate "," (jsonFieldPieces fs) ++ "\x7d"

def jsonListPieces : List OutVal → List String
  | [] => []
  | x :: xs => jsonStringify x :: jsonListPieces xs

def jsonFieldPieces : List (String × OutVal) → List String
  | [] => []
  | kv :: fs =>
    if kv.2.isUndef then jsonFieldPieces fs
    else ("\"" ++ jsonEscape kv.1 ++ "\":" ++ jsonStringify kv.2) :: jsonFieldPieces fs

end

/-! # The context formatter: generateJSX (inject.js lines 284-326) -/

/-- The DOM element facts generateJSX consumes. -/
structure DomElement where
  tagName : String
  textContent : String
  childCount : Nat
  id : String
  className : String
deriving DecidableEq, Repr

/-- Source location from a fiber's `_debugSource`. -/
structure SrcInfo where
  fileName : String
  lineNumber : Nat
  columnNumber : Nat
deriving DecidableEq, Repr

/-- One attribute of the generated JSX, inject.js lines 290-307.  The
`else if` chain is translated in order.  Two notes on reachability: props
here are always sanitizer output, so the `typeof value === 'function'` test
can never fire, and the alternative `value.startsWith('ƒ ')` in the same
test is dead code because every string was already consumed by the first
branch (`typeof value === 'string'`).  Booleans that are `false` and any
remaining composite fall into the final JSON branch. -/
def attrString (key : String) (value : OutVal) : String :=
  let jsonAttr :=
    let s := jsonStringify value
    if s.length < 50 then " " ++ key ++ "=\x7b" ++ s ++ "\x7d"
    else " " ++ key ++ "=\x7b...\x7d"
  match value with
  | .prim (.str s) => " " ++ key ++ "=\"" ++ s ++ "\""
  | .prim (.bool b) => if b then " " ++ key else jsonAttr
  | .prim (.num n) => " " ++ key ++ "=\x7b" ++ toString n ++ "\x7d"
  | .prim .null => ""
  | .prim .undef => ""
  | _ => jsonAttr

/-- JavaScript `s.toLowerCase()`. -/
def jsToLower (s : String) : String := ⟨s.data.map Char.toLower⟩

/-- The serializable part of a resolved component (inject.js lines 246-251).
The source object also carries `fiber`, the opaque back-reference to the
resolved record; `getComponentInfo` below returns it alongside as a pair. -/
structure ComponentInfo where
  name : String
  props : List (String × OutVal)
  source : Option SrcInfo

/-- `generateJSX(element, componentInfo)`, inject.js lines 284-326. -/
def generateJSX (element : DomElement) (componentInfo : Option ComponentInfo) : String :=
  let tagName :=
    match componentInfo with
    | some ci => if ci.name = "" then jsToLower element.tagName else ci.name
    | none => jsToLower element.tagName
  let props :=
    match componentInfo with
    | some ci => ci.props
    | none => []
  let jsx := "<" ++ tagName ++ String.join (props.map (fun kv => attrString kv.1 kv.2))
  let textContent := jsTrim element.textContent
  let hasChildren := element.childCount > 0 || textContent != ""
  if hasChildren then
    let body :=
      if element.childCount = 0 && textContent != "" then
        (if textContent.length > 50 then jsTake textContent 50 ++ "..." else textContent)
      else "..."
    jsx ++ ">" ++ body ++ "</" ++ tagName ++ ">"
  else
    jsx ++ " />"

/-! # The component resolver (inject.js lines 10-120, 230-252) -/

/-- A named function value (`displayName` may be absent; `name` may be the
empty string, which is falsy in the `||` chains). -/
structure NamedFn where
  displayName : Option String
  name : String
deriving DecidableEq, Repr

/-- The `type` field of a fiber: a function/class component, a wrapper
object (ForwardRef/Memo style, with optional `render` function and nested
`type`), or a host component (string tag, `typeof type === 'string'`). -/
inductive FiberType where
  | fn (displayName : Option String) (name : String)
  | obj (displayName : Option String) (render : Option NamedFn) (inner : Option NamedFn)
  | host (tag : String)
deriving DecidableEq, Repr

/-- A React fiber record: `type`, `memoizedProps` (a JS value, absent when
null/undefined), `_debugSource`, and the parent link `return`. -/
inductive Fiber where
  | mk (ty : Option FiberType) (memoizedProps : Option JSVal)
       (debugSource : Option SrcInfo) (ret : Option Fiber)

def Fiber.ty : Fiber → Option FiberType
  | .mk t _ _ _ => t

def Fiber.memoizedProps : Fiber → Option JSVal
  | .mk _ p _ _ => p

def Fiber.debugSource : Fiber → Option SrcInfo
  | .mk _ _ d _ => d

def Fiber.ret : Fiber → Option Fiber
  | .mk _ _ _ r => r

/-- The recognized internal-tree attachment key markers, inject.js
lines 11-15. -/
def FIBER_PREFIXES : List String :=
  ["__reactFiber$", "__reactInternalInstance$", "_reactRootContainer"]

/-- The fixed exclusion set of framework-internal construct names,
inject.js lines 18-32. -/
def EXCLUDED_COMPONENTS : List String :=
  ["Fragment", "Suspense", "StrictMode", "Profiler", "Provider", "Consumer",
   "Context", "Portal", "Boundary", "ErrorBoundary", "ForwardRef", "Memo", "Lazy"]

/-- `getComponentName(fiber)`, inject.js lines 85-106: the `||` chains skip
null, undefined and empty strings, so the result is `none` or a non-empty
name. -/
def getComponentName (f : Fiber) : Option String :=
  match f.ty with
  | none => none
  | some (.fn d n) => (truthyStr d).orElse (fun _ => truthyStr (some n))
  | some (.obj d r i) =>
    (truthyStr d).orElse (fun _ =>
    (truthyStr (r.bind NamedFn.displayName)).orElse (fun _ =>
    (truthyStr (r.map NamedFn.name)).orElse (fun _ =>
    (truthyStr (i.bind NamedFn.displayName)).orElse (fun _ =>
    truthyStr (i.map NamedFn.name)))))
  | some (.host _) => none

/-- `/^[A-Z]/.test(name)` (ASCII uppercase first character). -/
def startsUppercase (s : String) : Bool :=
  match s.data with
  | c :: _ => 'A' ≤ c && c ≤ 'Z'
  | [] => false

/-- `isValidComponent(fiber)`, inject.js lines 56-80: non-null type that is
a function or plain object, a truthy resolved name not in the exclusion
set, not starting with `_` or `$`, starting with an uppercase letter. -/
def isValidComponent (f : Fiber) : Bool :=
  match f.ty with
  | none => false
  | some (.host _) => false
  | some _ =>
    match getComponentName f with
    | none => false
    | some name =>
      !(EXCLUDED_COMPONENTS.contains name) &&
      !(jsStartsWith name "_") && !(jsStartsWith name "$") &&
      startsUppercase name

/-- An element of the page, as the resolver sees it: its own enumerable
keys and, for each, the attached value (a fiber or null). -/
structure PageElement where
  props : List (String × Option Fiber)

/-- `getFiberFromElement(element)`, inject.js lines 40-51: the value stored
under the first own key that starts with one of the recognized markers. -/
def getFiberFromElement (element : Option PageElement) : Option Fiber :=
  match element with
  | none => none
  | some el =>
    match el.props.find? (fun kv => FIBER_PREFIXES.any (fun p => jsStartsWith kv.1 p)) with
    | some kv => kv.2
    | none => none

/-- `findComponentFiber(fiber, predicate)`, inject.js lines 111-120: walk
the `return` chain until the predicate holds. -/
def findComponentFiber : Fiber → (Fiber → Bool) → Option Fiber
  | .mk ty mp ds ret, pred =>
    if pred (.mk ty mp ds ret) then some (.mk ty mp ds ret)
    else
      match ret with
      | some parent => findComponentFiber parent pred
      | none => none

/-- The ancestor chain starting at a fiber (the fiber itself first). -/
def fiberChain : Fiber → List Fiber
  | .mk ty mp ds ret =>
    .mk ty mp ds ret ::
      (match ret with
       | some parent => fiberChain parent
       | none => [])

/-- The proper ancestors of a fiber (everything above it). -/
def fiberTail (f : Fiber) : List Fiber :=
  match f.ret with
  | some parent => fiberChain parent
  | none => []

/-- `getSourceInfo(fiber)`, inject.js lines 125-151: the first
`_debugSource` found on the fiber or its ancestors (the initial check is
subsumed by the walk, which starts at the fiber itself). -/
def getSourceInfo : Fiber → Option SrcInfo
  | .mk _ _ ds ret =>
    match ds with
    | some s => some s
    | none =>
      match ret with
      | some parent => getSourceInfo parent
      | none => none

/-- `getComponentInfo(element)`, inject.js lines 230-252.  The JS result
object `{name, props, source, fiber}` is modelled as the pair of its
serializable part and the fiber back-reference. -/
def getComponentInfo (h : Heap) (element : Option PageElement) : Option (ComponentInfo × Fiber) :=
  match getFiberFromElement element with
  | none => none
  | some fiber =>
    match findComponentFiber fiber isValidComponent with
    | none => none
    | some componentFiber =>
      match getComponentName componentFiber with
      | none => none
      | some name =>
        some ({ name := name,
                props :=
                  match componentFiber.memoizedProps with
                  | some p => sanitizeProps h 3 p
                  | none => [],
                source := getSourceInfo componentFiber },
              componentFiber)

/-! # The relay client: send path (types.ts lines 1316, 1411-1449) -/

/-- The workspace identity reported by a server `status` message. -/
structure WsInfo where
  name : String
  path : String
deriving DecidableEq, Repr

/-- A connected-endpoint descriptor, types.ts lines 16-20. -/
structure Workspace where
  port : Nat
  name : String
  path : String
deriving DecidableEq, Repr

/-- `WebSocket.OPEN`. -/
def wsOPEN : Nat := 1

/-- One entry of the `connections` map: the socket's `readyState`, the
reported workspace (if any), and the `isConnected` flag. -/
structure ConnEntry where
  readyState : Nat
  workspace : Option WsInfo
  isConnected : Bool
deriving DecidableEq, Repr

/-- The `connections` map in iteration (= insertion) order. -/
abbrev Connections := List (Nat × ConnEntry)

/-- `connections.get(port)`. -/
def lookupConn (conns : Connections) (port : Nat) : Option ConnEntry :=
  (conns.find? (fun pc => pc.1 == port)).map Prod.snd

/-- `getConnectedWorkspaces()`, types.ts lines 1411-1423. -/
def getConnectedWorkspaces (conns : Connections) : List Workspace :=
  (conns.filter (fun pc => pc.2.isConnected && pc.2.readyState == wsOPEN)).map
    (fun pc =>
      { port := pc.1,
        name :=
          match pc.2.workspace with
          | some w => if w.name = "" then "VSCode (port " ++ toString pc.1 ++ ")" else w.name
          | none => "VSCode (port " ++ toString pc.1 ++ ")",
        path :=
          match pc.2.workspace with
          | some w => w.path
          | none => "" })

/-- The value `sendToVSCode` returns: `true`, `false` or `'multiple'`. -/
inductive SendOutcome where
  | ok
  | fail
  | multiple
deriving DecidableEq, Repr

/-- The observable effect of one `sendToVSCode` call: its return value, the
ports a frame was written to, and the notifications shown. -/
structure SendEffect where
  outcome : SendOutcome
  sent : List Nat
  notices : List String
deriving DecidableEq, Repr

/-- The no-explicit-target tail of `sendToVSCode`, types.ts lines 1442-1448:
with exactly one connected workspace the frame goes to it (the re-lookup in
the map always succeeds, and `return true` is unconditional); otherwise the
caller is told to choose (`'multiple'`). -/
def noTargetSend (conns : Connections) (workspaces : List Workspace) : SendEffect :=
  if workspaces.length = 1 then
    match workspaces with
    | w :: _ =>
      match lookupConn conns w.port with
      | some _ => ⟨.ok, [w.port], []⟩
      | none => ⟨.ok, [], []⟩
    | [] => ⟨.ok, [], []⟩
  else ⟨.multiple, [], []⟩

/-- `sendToVSCode(type, data, targetPort)`, types.ts lines 1425-1449.  A
`targetPort` of 0 is falsy in JS, so `if (targetPort)` also ignores it. -/
def sendToVSCode (conns : Connections) (targetPort : Option Nat) : SendEffect :=
  let workspaces := getConnectedWorkspaces conns
  if workspaces.length = 0 then ⟨.fail, [], ["Not connected to VSCode"]⟩
  else
    match targetPort with
    | some tp =>
      if tp ≠ 0 then
        match lookupConn conns tp with
        | some c => if c.readyState = wsOPEN then ⟨.ok, [tp], []⟩ else ⟨.fail, [], []⟩
        | none => ⟨.fail, [], []⟩
      else noTargetSend conns workspaces
    | none => noTargetSend conns workspaces

/-! # The relay client: connection lifecycle
(types.ts lines 1370-1402 and 1471-1476)

`connectToPort` registers an entry in `connections` only in the `onopen`
callback; before that the freshly constructed WebSocket is a live handle
that the `connections.has(port)` guard cannot see.  The model tracks every
constructed socket (id, port, state) next to the registered map. -/

/-- Lifecycle state of one constructed WebSocket handle. -/
inductive SockState where
  | connecting
  | opened
  | closed
deriving DecidableEq, BEq, Repr

/-- The connection subsystem: all constructed sockets, the registered
`connections` map (port to socket id; the workspace/isConnected payload is
irrelevant here), and a fresh-id counter. -/
structure RelayState where
  sockets : List (Nat × Nat × SockState)
  connections : List (Nat × Nat)
  nextId : Nat
deriving DecidableEq, Repr

def relayInit : RelayState := ⟨[], [], 0⟩

/-- `connections.get(port)` in the lifecycle model. -/
def connLookup (m : RelayState) (port : Nat) : Option Nat :=
  (m.connections.find? (fun pc => pc.1 == port)).map Prod.snd

/-- The state of a constructed socket by id. -/
def sockState (m : RelayState) (sid : Nat) : Option SockState :=
  (m.sockets.find? (fun s => s.1 == sid)).map (fun s => s.2.2)

/-- `connectToPort(port)`, types.ts lines 1370-1402: skip only when the
registered entry's socket is OPEN; otherwise construct a new WebSocket
(initially CONNECTING). -/
def connectToPort (m : RelayState) (port : Nat) : RelayState :=
  let registeredOpen :=
    match connLookup m port with
    | some sid =>
      match sockState m sid with
      | some st => st == SockState.opened
      | none => false
    | none => false
  if registeredOpen then m
  else { m with
         sockets := m.sockets ++ [(m.nextId, port, SockState.connecting)],
         nextId := m.nextId + 1 }

/-- `connections.set(port, ...)`: replace or append the entry for a port. -/
def setConn (conns : List (Nat × Nat)) (port sid : Nat) : List (Nat × Nat) :=
  if conns.any (fun pc => pc.1 == port) then
    conns.map (fun pc => if pc.1 == port then (port, sid) else pc)
  else conns ++ [(port, sid)]

/-- `ws.onopen` for socket `sid`: mark it open and register it. -/
def sockOpened (m : RelayState) (sid : Nat) : RelayState :=
  match m.sockets.find? (fun s => s.1 == sid) with
  | some s =>
    { m with
      sockets := m.sockets.map (fun t => if t.1 == sid then (sid, t.2.1, SockState.opened) else t),
      connections := setConn m.connections s.2.1 sid }
  | none => m

/-- `ws.onclose` for socket `sid`: mark it closed and
`connections.delete(port)` for its port. -/
def sockClosed (m : RelayState) (sid : Nat) : RelayState :=
  match m.sockets.find? (fun s => s.1 == sid) with
  | some s =>
    { m with
      sockets := m.sockets.map (fun t => if t.1 == sid then (sid, t.2.1, SockState.closed) else t),
      connections := m.connections.filter (fun pc => pc.1 != s.2.1) }
  | none => m

/-- Connection-lifecycle events: a polling-timer `connectToPort` call, and
socket callbacks. -/
inductive REvent where
  | attempt (port : Nat)
  | opened (sid : Nat)
  | closedEv (sid : Nat)
deriving DecidableEq, Repr

def stepRelay (m : RelayState) : REvent → RelayState
  | .attempt port => connectToPort m port
  | .opened sid => sockOpened m sid
  | .closedEv sid => sockClosed m sid

def runRelay (m : RelayState) : List REvent → RelayState
  | [] => m
  | e :: es => runRelay (stepRelay m e) es

/-- Number of live (not closed) WebSocket handles for a port. -/
def liveHandleCount (m : RelayState) (port : Nat) : Nat :=
  (m.sockets.filter (fun s => s.2.1 == port && s.2.2 != SockState.closed)).length

/-! # The interaction state machine (types.ts lines 1316-1334, 1596-1762)

The observable state of the content script: grab mode flag, monotonically
increasing request id, the `pendingRequests` map, the hover context and the
overlay/label visibility (the overlay and label are shown and hidden
together by `showOverlay`/`hideOverlay`, so one option models both).  The
Alt-hold debounce timer is abstracted into the `activate` event, which is
the timer firing `activateGrabMode()`. -/

/-- Resolved hover context (the part the overlay shows). -/
structure Ctx where
  componentName : String
deriving DecidableEq, Repr

/-- The bounding rect attached to a hover response. -/
structure Rect where
  top : Int
  left : Int
  width : Int
  height : Int
deriving DecidableEq, Repr

/-- Observable content-script state. -/
structure GrabState where
  isGrabMode : Bool
  requestId : Nat
  pending : List (Nat × String)
  currentContext : Option Ctx
  overlay : Option (Rect × Ctx)
  crosshairVisible : Bool
  mouseX : Int
  mouseY : Int
deriving DecidableEq, Repr

/-- Initial module state, types.ts lines 1317-1324. -/
def initGrabState : GrabState :=
  { isGrabMode := false, requestId := 0, pending := [], currentContext := none,
    overlay := none, crosshairVisible := false, mouseX := 0, mouseY := 0 }

/-- `pendingRequests.get(id)`. -/
def lookupPending (l : List (Nat × String)) (id : Nat) : Option String :=
  (l.find? (fun e => e.1 == id)).map Prod.snd

/-- `pendingRequests.delete(id)`. -/
def erasePending (l : List (Nat × String)) (id : Nat) : List (Nat × String) :=
  l.filter (fun e => e.1 != id)

/-- `updateHoverElement()`, types.ts lines 1709-1724: while in grab mode,
issue a fresh request id and record it as pending (the posted lookup
message itself is modelled by the later response events). -/
def updateHoverElement (s : GrabState) : GrabState :=
  if s.isGrabMode then
    { s with requestId := s.requestId + 1,
             pending := s.pending ++ [(s.requestId + 1, "hover")] }
  else s

/-- `activateGrabMode()`, types.ts lines 1630-1650. -/
def activateGrabMode (s : GrabState) : GrabState :=
  if s.isGrabMode then s
  else updateHoverElement { s with isGrabMode := true, crosshairVisible := true }

/-- `deactivateGrabMode()`, types.ts lines 1652-1672: synchronously hides
the overlay and crosshair, clears the context and pending requests. -/
def deactivateGrabMode (s : GrabState) : GrabState :=
  if s.isGrabMode then
    { s with isGrabMode := false, overlay := none, crosshairVisible := false,
             currentContext := none, pending := [] }
  else s

/-- `handleMouseMove(event)`, types.ts lines 1685-1694. -/
def handleMouseMove (s : GrabState) (x y : Int) : GrabState :=
  let s1 := { s with mouseX := x, mouseY := y }
  if s1.isGrabMode then updateHoverElement s1 else s1

/-- The Escape branch of `handleKeyDown`, types.ts lines 1606-1610. -/
def handleEscapeKey (s : GrabState) : GrabState :=
  if s.isGrabMode then deactivateGrabMode s else s

/-- The window `blur` listener, types.ts line 1593. -/
def handleWindowBlur (s : GrabState) : GrabState :=
  deactivateGrabMode s

/-- `handleClick(event)`, types.ts lines 1696-1707 (the dialog opening is
outside this model). -/
def handleClick (s : GrabState) : GrabState :=
  if s.isGrabMode then
    match s.currentContext with
    | some _ => deactivateGrabMode s
    | none => s
  else s

/-- The `GRAB_ELEMENT_FOUND` handler, types.ts lines 1732-1742: guarded
only by membership of the response's request id in `pendingRequests`. -/
def handleElementFound (s : GrabState) (id : Nat) (ctx : Ctx) (rect : Rect) : GrabState :=
  if lookupPending s.pending id == some "hover" then
    let s1 := { s with pending := erasePending s.pending id }
    if s1.isGrabMode then
      { s1 with currentContext := some ctx, overlay := some (rect, ctx) }
    else s1
  else s

/-- The `GRAB_ELEMENT_NOT_FOUND` handler, types.ts lines 1744-1752. -/
def handleElementNotFound (s : GrabState) (id : Nat) : GrabState :=
  if lookupPending s.pending id == some "hover" then
    { s with pending := erasePending s.pending id, overlay := none, currentContext := none }
  else s

/-- The user/page events the state machine reacts to. -/
inductive GEvent where
  | activate
  | mouseMove (x y : Int)
  | escapeKey
  | windowBlur
  | click
  | elementFound (id : Nat) (ctx : Ctx) (rect : Rect)
  | elementNotFound (id : Nat)
deriving DecidableEq, Repr

def stepG (s : GrabState) : GEvent → GrabState
  | .activate => activateGrabMode s
  | .mouseMove x y => handleMouseMove s x y
  | .escapeKey => handleEscapeKey s
  | .windowBlur => handleWindowBlur s
  | .click => handleClick s
  | .elementFound id ctx rect => handleElementFound s id ctx rect
  | .elementNotFound id => handleElementNotFound s id

def runG (s : GrabState) : List GEvent → GrabState
  | [] => s
  | e :: es => runG (stepG s e) es

/-- An event is compatible with "only responses to requests issued no later
than `bound` arrive": it is either not a hover response, or a response
whose request id is at most `bound`. -/
def staleOnly (bound : Nat) : GEvent → Prop
  | .elementFound id _ _ => id ≤ bound
  | _ => True

instance (bound : Nat) (e : GEvent) : Decidable (staleOnly bound e) := by
  cases e <;> simp [staleOnly] <;> infer_instance

/-- Invariant propagated after a cancellation whose request counter was
`R`: the overlay is hidden, the counter never decreases, and every pending
request id is newer than `R` (so responses to requests in flight at
cancellation time can never pass the pending guard again). -/
def hiddenInv (R : Nat) (t : GrabState) : Prop :=
  t.overlay = none ∧ R ≤ t.requestId ∧ ∀ p ∈ t.pending, R < p.1

/-! # Concrete instances for counterexamples and witnesses -/

/-- Number of own keys of the mapping at address `a`. -/
def mappingKeyCount (h : Heap) (a : Nat) : Nat := (entriesOf (h a)).length

/-- Number of retained (non-summary) keys of a sanitized mapping. -/
def retainedKeyCount : OutVal → Nat
  | .map fs => (fs.filter (fun kv => kv.1 != "...")).length
  | _ => 0

/-- Eleven own keys, the first starting with an underscore. -/
def fieldsC2 : List (String × JSVal) :=
  [("_a", .num 0), ("b", .num 1), ("c", .num 2), ("d", .num 3), ("e", .num 4),
   ("f", .num 5), ("g", .num 6), ("hh", .num 7), ("i", .num 8), ("j", .num 9),
   ("k", .num 10)]

/-- A heap whose address 0 is a plain object with the 11 keys above. -/
def hC2 : Heap := fun _ => .obj fieldsC2

/-- The heap of the UserCard scenario: address 0 is the props object
`{name: "Ann", onClick: <anonymous function>, items: <address 1>}` and
address 1 is the array `[1, 2, 3, 4, 5, 6]`. -/
def hC6 : Heap := fun a =>
  if a = 0 then .obj [("name", .str "Ann"), ("onClick", .func ""), ("items", .ref 1)]
  else .arr [.num 1, .num 2, .num 3, .num 4, .num 5, .num 6]

/-- The DOM element of the UserCard scenario: no children, no text. -/
def elemC6 : DomElement :=
  { tagName := "DIV", textContent := "", childCount := 0, id := "", className := "" }

/-- The resolved UserCard component with its sanitized props. -/
def infoC6 : ComponentInfo :=
  { name := "UserCard", props := sanitizeProps hC6 3 (.ref 0), source := none }

/-- A fiber for a valid user component named UserCard. -/
def userCardFiber : Fiber :=
  .mk (some (.fn none "UserCard")) none none none

/-- A fiber whose resolved name is the excluded construct "Fragment", whose
parent is the UserCard fiber. -/
def fragmentFiber : Fiber :=
  .mk (some (.fn (some "Fragment") "")) none none (some userCardFiber)

/-- A page element carrying no recognized internal-tree attachment key. -/
def plainElement : PageElement :=
  { props := [("id", none), ("className", none), ("onclick", none)] }

/-- Two registered connections: port 9765 open, port 9766 closing. -/
def connsC10 : Connections :=
  [(9765, { readyState := wsOPEN, workspace := none, isConnected := true }),
   (9766, { readyState := 2, workspace := some ⟨"api", "/w/api"⟩, isConnected := true })]

/-- A single open connection on port 9765. -/
def connsOne : Connections :=
  [(9765, { readyState := wsOPEN, workspace := some ⟨"api", "/w/api"⟩, isConnected := true })]

/-- Two open connections on ports 9765 and 9766. -/
def connsTwo : Connections :=
  [(9765, { readyState := wsOPEN, workspace := some ⟨"api", "/w/api"⟩, isConnected := true }),
   (9766, { readyState := wsOPEN, workspace := some ⟨"web", "/w/web"⟩, isConnected := true })]

/-- Hover contexts and a rect for the overlay counterexample. -/
def ctxA : Ctx := ⟨"CardA"⟩

def ctxB : Ctx := ⟨"CardB"⟩

def rect0 : Rect := ⟨10, 20, 100, 50⟩

/-! # Theorems -/

theorem one_le_sizeBound : ∀ n, 1 ≤ sizeBound n
  | 0 => Nat.le_refl 1
  | n + 1 => by simp only [sizeBound]; omega

theorem hasRefList_append (l1 l2 : List OutVal) :
    hasRefList (l1 ++ l2) = (hasRefList l1 || hasRefList l2) := by
  induction l1 with
  | nil => simp [hasRefList]
  | cons x xs ih => simp [hasRefList, ih, Bool.or_assoc]

theorem nodesList_append (l1 l2 : List OutVal) :
    nodesList (l1 ++ l2) = nodesList l1 + nodesList l2 := by
  induction l1 with
  | nil => simp [nodesList]
  | cons x xs ih => simp [nodesList, ih]; omega

theorem hasRefFields_append (l1 l2 : List (String × OutVal)) :
    hasRefFields (l1 ++ l2) = (hasRefFields l1 || hasRefFields l2) := by
  induction l1 with
  | nil => simp [hasRefFields]
  | cons x xs ih => simp [hasRefFields, ih, Bool.or_assoc]

theorem nodesFields_append (l1 l2 : List (String × OutVal)) :
    nodesFields (l1 ++ l2) = nodesFields l1 + nodesFields l2 := by
  induction l1 with
  | nil => simp [nodesFields]
  | cons x xs ih => simp [nodesFields, ih]; omega

theorem arrFold_bound (h : Heap) (maxDepth fuel depth B : Nat)
    (ih : ∀ seen v, (sanitizeF h maxDepth fuel depth seen v).1.hasRef = false ∧
                    nodes (sanitizeF h maxDepth fuel depth seen v).1 ≤ B) :
    ∀ (xs : List JSVal) (acc : List OutVal × List Nat),
      hasRefList ((xs.foldl (fun (acc : List OutVal × List Nat) x =>
          let r1 := sanitizeF h maxDepth fuel depth acc.2 x
          (acc.1 ++ [r1.1], r1.2)) acc).1) = hasRefList acc.1 ∧
      nodesList ((xs.foldl (fun (acc : List OutVal × List Nat) x =>
          let r1 := sanitizeF h maxDepth fuel depth acc.2 x
          (acc.1 ++ [r1.1], r1.2)) acc).1) ≤ nodesList acc.1 + xs.length * B := by
  intro xs
  induction xs with
  | nil => intro acc; simp
  | cons x xs ihx =>
    intro acc
    simp only [List.foldl_cons]
    have h1 := ih acc.2 x
    have h2 := ihx ((acc.1 ++ [(sanitizeF h maxDepth fuel depth acc.2 x).1],
                     (sanitizeF h maxDepth fuel depth acc.2 x).2))
    constructor
    · rw [h2.1, hasRefList_append]
      simp [hasRefList, h1.1]
    · refine le_trans h2.2 ?_
      rw [nodesList_append]
      simp only [nodesList]
      have := h1.2
      simp only [List.length_cons]
      nlinarith [h1.2]

theorem objFold_bound (h : Heap) (maxDepth fuel depth B : Nat)
    (ih : ∀ seen v, (sanitizeF h maxDepth fuel depth seen v).1.hasRef = false ∧
                    nodes (sanitizeF h maxDepth fuel depth seen v).1 ≤ B) :
    ∀ (fs : List (String × JSVal)) (acc : List (String × OutVal) × List Nat),
      hasRefFields ((fs.foldl (fun (acc : List (String × OutVal) × List Nat) kv =>
          if jsStartsWith kv.1 "_" then acc
          else
            let r1 := sanitizeF h maxDepth fuel depth acc.2 kv.2
            (acc.1 ++ [(kv.1, r1.1)], r1.2)) acc).1) = hasRefFields acc.1 ∧
      nodesFields ((fs.foldl (fun (acc : List (String × OutVal) × List Nat) kv =>
          if jsStartsWith kv.1 "_" then acc
          else
            let r1 := sanitizeF h maxDepth fuel depth acc.2 kv.2
            (acc.1 ++ [(kv.1, r1.1)], r1.2)) acc).1) ≤ nodesFields acc.1 + fs.length * B := by
  intro fs
  induction fs with
  | nil => intro acc; simp
  | cons kv fs ihf =>
    intro acc
    simp only [List.foldl_cons]
    by_cases hu : jsStartsWith kv.1 "_"
    · rw [if_pos hu]
      have h2 := ihf acc
      refine ⟨h2.1, le_trans h2.2 ?_⟩
      simp only [List.length_cons]
      nlinarith
    · rw [if_neg hu]
      have h1 := ih acc.2 kv.2
      have h2 := ihf ((acc.1 ++ [(kv.1, (sanitizeF h maxDepth fuel depth acc.2 kv.2).1)],
                       (sanitizeF h maxDepth fuel depth acc.2 kv.2).2))
      constructor
      · rw [h2.1, hasRefFields_append]
        simp [hasRefFields, h1.1]
      · refine le_trans h2.2 ?_
        rw [nodesFields_append]
        simp only [nodesFields, List.length_cons]
        nlinarith [h1.2]

theorem sanitizeF_bounded (h : Heap) (maxDepth : Nat) :
    ∀ fuel depth seen v,
      (sanitizeF h maxDepth fuel depth seen v).1.hasRef = false ∧
      nodes (sanitizeF h maxDepth fuel depth seen v).1 ≤ sizeBound (maxDepth + 1 - depth) := by
  intro fuel
  induction fuel with
  | zero =>
    intro depth seen v
    unfold sanitizeF
    split
    · exact ⟨by simp [OutVal.hasRef], le_trans (by simp [nodes]) (one_le_sizeBound _)⟩
    · exact ⟨by simp [OutVal.hasRef], le_trans (by simp [nodes]) (one_le_sizeBound _)⟩
  | succ fuel' ih =>
    intro depth seen v
    unfold sanitizeF
    by_cases hd : depth > maxDepth
    · rw [if_pos hd]
      exact ⟨by simp [OutVal.hasRef], le_trans (by simp [nodes]) (one_le_sizeBound _)⟩
    · rw [if_neg hd]
      have hdd : maxDepth + 1 - depth = (maxDepth - depth) + 1 := by omega
      have hdn : maxDepth + 1 - (depth + 1) = maxDepth - depth := by omega
      have ih' : ∀ seen v, (sanitizeF h maxDepth fuel' (depth + 1) seen v).1.hasRef = false ∧
          nodes (sanitizeF h maxDepth fuel' (depth + 1) seen v).1 ≤ sizeBound (maxDepth - depth) := by
        intro seen v
        have := ih (depth + 1) seen v
        rwa [hdn] at this
      have hB1 : 1 ≤ sizeBound (maxDepth - depth) := one_le_sizeBound _
      cases v with
      | null => exact ⟨by simp [OutVal.hasRef], le_trans (by simp [nodes]) (one_le_sizeBound _)⟩
      | undef => exact ⟨by simp [OutVal.hasRef], le_trans (by simp [nodes]) (one_le_sizeBound _)⟩
      | bool b => exact ⟨by simp [OutVal.hasRef], le_trans (by simp [nodes]) (one_le_sizeBound _)⟩
      | num n => exact ⟨by simp [OutVal.hasRef], le_trans (by simp [nodes]) (one_le_sizeBound _)⟩
      | str s => exact ⟨by simp [OutVal.hasRef], le_trans (by simp [nodes]) (one_le_sizeBound _)⟩
      | func name => exact ⟨by simp [OutVal.hasRef], le_trans (by simp [nodes]) (one_le_sizeBound _)⟩
      | sym d => exact ⟨by simp [OutVal.hasRef], le_trans (by simp [nodes]) (one_le_sizeBound _)⟩
      | ref a =>
        cases hha : h a with
        | domNode =>
          simp only [hha]
          exact ⟨by simp [OutVal.hasRef], le_trans (by simp [nodes]) (one_le_sizeBound _)⟩
        | reactElem ty =>
          simp only [hha]
          by_cases hs : a ∈ seen
          · rw [if_pos hs]
            exact ⟨by simp [OutVal.hasRef], le_trans (by simp [nodes]) (one_le_sizeBound _)⟩
          · rw [if_neg hs]
            exact ⟨by simp [OutVal.hasRef], le_trans (by simp [nodes]) (one_le_sizeBound _)⟩
        | arr xs =>
          simp only [hha]
          by_cases hs : a ∈ seen
          · rw [if_pos hs]
            exact ⟨by simp [OutVal.hasRef], le_trans (by simp [nodes]) (one_le_sizeBound _)⟩
          · rw [if_neg hs]
            have hfold := arrFold_bound h maxDepth fuel' (depth + 1) (sizeBound (maxDepth - depth)) ih'
              (if xs.length > 5 then xs.take 5 else xs) ([], a :: seen)
            by_cases hlen : xs.length > 5
            · simp only [if_pos hlen] at hfold ⊢
              constructor
              · simp only [OutVal.hasRef, hasRefList_append]
                rw [hfold.1]
                simp [hasRefList, OutVal.hasRef]
              · simp only [nodes, nodesList_append]
                have hn := hfold.2
                simp only [nodesList] at hn ⊢
                have hlt : (xs.take 5).length ≤ 5 := by
                  simp [List.length_take]
                rw [hdd]
                simp only [sizeBound, nodes]
                nlinarith
            · simp only [if_neg hlen] at hfold ⊢
              constructor
              · simp only [OutVal.hasRef]
                rw [hfold.1]
                simp [hasRefList]
              · simp only [nodes]
                have hn := hfold.2
                simp only [nodesList] at hn
                have hlt : xs.length ≤ 5 := by omega
                rw [hdd]
                simp only [sizeBound]
                nlinarith
        | obj fs =>
          simp only [hha]
          by_cases hs : a ∈ seen
          · rw [if_pos hs]
            exact ⟨by simp [OutVal.hasRef], le_trans (by simp [nodes]) (one_le_sizeBound _)⟩
          · rw [if_neg hs]
            have hfold := objFold_bound h maxDepth fuel' (depth + 1) (sizeBound (maxDepth - depth)) ih'
              (fs.take 10) ([], a :: seen)
            by_cases hlen : fs.length > 10
            · simp only [if_pos hlen]
              constructor
              · simp only [OutVal.hasRef, hasRefFields_append]
                rw [hfold.1]
                simp [hasRefFields, OutVal.hasRef]
              · simp only [nodes, nodesFields_append]
                have hn := hfold.2
                simp only [nodesFields] at hn ⊢
                have hlt : (fs.take 10).length ≤ 10 := by
                  simp [List.length_take]
                rw [hdd]
                simp only [sizeBound, nodes]
                nlinarith
            · simp only [if_neg hlen]
              constructor
              · simp only [OutVal.hasRef]
                rw [hfold.1]
                simp [hasRefFields]
              · simp only [nodes]
                have hn := hfold.2
                simp only [nodesFields] at hn
                have hlt : (fs.take 10).length ≤ 10 := by
                  simp [List.length_take]
                rw [hdd]
                simp only [sizeBound]
                nlinarith

/-- C1: for every value (including members of cyclic and deeply nested
object graphs), the sanitizer is a total function (this Lean definition is
total and the source recursion is bounded by the depth check), its result
is JSON-serializable, holds no reference identical to any object reachable
from the input (no `OutVal.ref` at all), and has size bounded by a constant
depending only on the depth budget, not on the input. -/
theorem sanitize_total_bounded_noRefs (h : Heap) (maxDepth depth : Nat)
    (seen : List Nat) (v : JSVal) :
    jsonSerializable (sanitize h maxDepth depth seen v).1 = true ∧
    (sanitize h maxDepth depth seen v).1.hasRef = false ∧
    nodes (sanitize h maxDepth depth seen v).1 ≤ sizeBound (maxDepth + 1 - depth) := by
  have hb := sanitizeF_bounded h maxDepth (maxDepth + 2 - depth) depth seen v
  refine ⟨?_, ?_, ?_⟩
  · simp [jsonSerializable, sanitize, hb.1]
  · simpa [sanitize] using hb.1
  · simpa [sanitize] using hb.2

theorem objFold_keys (h : Heap) (maxDepth fuel depth : Nat) :
    ∀ (fs : List (String × JSVal)) (acc : List (String × OutVal) × List Nat),
      ((fs.foldl (fun (acc : List (String × OutVal) × List Nat) kv =>
          if jsStartsWith kv.1 "_" then acc
          else
            let r1 := sanitizeF h maxDepth fuel depth acc.2 kv.2
            (acc.1 ++ [(kv.1, r1.1)], r1.2)) acc).1).map Prod.fst
      = acc.1.map Prod.fst ++ (fs.filter (fun kv => !(jsStartsWith kv.1 "_"))).map Prod.fst := by
  intro fs
  induction fs with
  | nil => intro acc; simp
  | cons kv fs ihf =>
    intro acc
    simp only [List.foldl_cons, List.filter_cons]
    by_cases hu : jsStartsWith kv.1 "_"
    · rw [if_pos hu, ihf acc]
      simp [hu]
    · rw [if_neg hu, ihf _]
      simp [hu]

/-- C2 (amended): for every mapping with more than 10 own keys (10 is the
configured mapping breadth bound), the sanitizer retains exactly those keys
among the input's first 10 enumerated keys that do not start with an
underscore (hence at most 10), in enumeration order, plus one trailing
`"..."` summary entry reporting `total - 10` as the omitted count.  The
original claim ("exactly N retained keys") fails when an underscore key
falls in the first 10; see `sanitize_mapping_breadth_cex`. -/
theorem sanitize_mapping_breadth (h : Heap) (maxDepth depth : Nat) (seen : List Nat)
    (a : Nat) (fs : List (String × JSVal))
    (hobj : h a = .obj fs) (hlen : fs.length > 10) (hseen : a ∉ seen) (hd : depth ≤ maxDepth) :
    ∃ kvs : List (String × OutVal),
      (sanitize h maxDepth depth seen (.ref a)).1
        = .map (kvs ++ [("...", .prim (.str (toString (fs.length - 10) ++ " more")))]) ∧
      kvs.map Prod.fst = ((fs.take 10).filter (fun kv => !(jsStartsWith kv.1 "_"))).map Prod.fst := by
  unfold sanitize
  obtain ⟨f', hf⟩ : ∃ f', maxDepth + 2 - depth = f' + 1 := ⟨maxDepth + 1 - depth, by omega⟩
  rw [hf]
  unfold sanitizeF
  rw [if_neg (by omega : ¬ depth > maxDepth)]
  simp only [hobj]
  rw [if_neg hseen, if_pos hlen]
  refine ⟨_, rfl, ?_⟩
  have hk := objFold_keys h maxDepth f' (depth + 1) (fs.take 10) ([], a :: seen)
  simpa using hk

/-- C2 counterexample: a mapping with 11 own keys whose first key is
`"_a"` sanitizes to 9 retained keys (plus the `"..."` summary), not the 10
retained keys the claim promises. -/
theorem sanitize_mapping_breadth_cex :
    mappingKeyCount hC2 0 = 11 ∧
    retainedKeyCount (sanitize hC2 3 0 [] (.ref 0)).1 = 9 ∧
    retainedKeyCount (sanitize hC2 3 0 [] (.ref 0)).1 ≠ 10 := by
  refine ⟨rfl, rfl, by decide⟩

/-- Witness instantiating `sanitize_mapping_breadth` on a concrete heap. -/
theorem sanitize_mapping_breadth_witness :
    hC2 0 = .obj fieldsC2 ∧ fieldsC2.length > 10 ∧ (0 : Nat) ∉ ([] : List Nat) ∧ (0 : Nat) ≤ 3 ∧
    ∃ kvs : List (String × OutVal),
      (sanitize hC2 3 0 [] (.ref 0)).1
        = .map (kvs ++ [("...", .prim (.str (toString (fieldsC2.length - 10) ++ " more")))]) ∧
      kvs.map Prod.fst = ((fieldsC2.take 10).filter (fun kv => !(jsStartsWith kv.1 "_"))).map Prod.fst :=
  ⟨rfl, by decide, by simp, by decide,
   sanitize_mapping_breadth hC2 3 0 [] 0 fieldsC2 rfl (by decide) (by simp) (by decide)⟩

/-- C6 counterexample: on the UserCard scenario the generated markup
renders the sanitized `onClick` placeholder through the string branch
(`onClick="ƒ anonymous()"`, since the first `typeof value === 'string'`
branch captures it before the dead `startsWith('ƒ ')` test) and inlines
`items` (its JSON is 23 characters, under the 50-character threshold), so
the markup is not the claimed
`<UserCard name="Ann" onClick={...} items={...} />`. -/
theorem usercard_markup_cex :
    generateJSX elemC6 (some infoC6)
      = "<UserCard name=\"Ann\" onClick=\"ƒ anonymous()\" items=\x7b[1,2,3,4,5,\"...1 more\"]\x7d />" ∧
    generateJSX elemC6 (some infoC6)
      ≠ "<UserCard name=\"Ann\" onClick=\x7b...\x7d items=\x7b...\x7d />" := by
  exact ⟨rfl, by decide⟩

/-- C6 (amended): the UserCard scenario sanitizes to
`{name: "Ann", onClick: "ƒ anonymous()", items: [1,2,3,4,5, "...1 more"]}`
exactly as claimed, but the rendered markup is
`<UserCard name="Ann" onClick="ƒ anonymous()" items={[1,2,3,4,5,"...1 more"]} />`. -/
theorem usercard_scenario :
    sanitizeProps hC6 3 (.ref 0)
      = [("name", .prim (.str "Ann")), ("onClick", .prim (.str "ƒ anonymous()")),
         ("items", .list [.prim (.num 1), .prim (.num 2), .prim (.num 3), .prim (.num 4),
                          .prim (.num 5), .prim (.str "...1 more")])] ∧
    infoC6.name = "UserCard" ∧ infoC6.props = sanitizeProps hC6 3 (.ref 0) ∧
    generateJSX elemC6 (some infoC6)
      = "<UserCard name=\"Ann\" onClick=\"ƒ anonymous()\" items=\x7b[1,2,3,4,5,\"...1 more\"]\x7d />" :=
  ⟨rfl, rfl, rfl, rfl⟩

theorem mem_connected_lookup (conns : Connections) (w : Workspace)
    (hw : w ∈ getConnectedWorkspaces conns) : (lookupConn conns w.port).isSome := by
  unfold getConnectedWorkspaces at hw
  rw [List.mem_map] at hw
  obtain ⟨pc, hpc, hweq⟩ := hw
  rw [List.mem_filter] at hpc
  unfold lookupConn
  rw [show ∀ (o : Option (Nat × ConnEntry)), (o.map Prod.snd).isSome = o.isSome from fun o => by cases o <;> rfl]
  rw [List.find?_isSome]
  exact ⟨pc, hpc.1, by subst hweq; simp⟩

/-- C3: the relay send case analysis. -/
theorem sendToVSCode_case_analysis (conns : Connections) :
    (getConnectedWorkspaces conns = [] →
      ∀ tp, sendToVSCode conns tp = ⟨.fail, [], ["Not connected to VSCode"]⟩) ∧
    (∀ w, getConnectedWorkspaces conns = [w] →
      sendToVSCode conns none = ⟨.ok, [w.port], []⟩) ∧
    (2 ≤ (getConnectedWorkspaces conns).length →
      sendToVSCode conns none = ⟨.multiple, [], []⟩) := by
  refine ⟨?_, ?_, ?_⟩
  · intro h0 tp
    unfold sendToVSCode
    simp [h0]
  · intro w h1
    unfold sendToVSCode
    rw [h1]
    simp only [List.length_singleton, one_ne_zero, if_neg]
    unfold noTargetSend
    have hs := mem_connected_lookup conns w (by rw [h1]; exact List.mem_singleton_self w)
    obtain ⟨c, hc⟩ := Option.isSome_iff_exists.mp hs
    simp [hc]
  · intro h2
    have hne : ¬ (getConnectedWorkspaces conns).length = 0 := by omega
    have hne1 : ¬ (getConnectedWorkspaces conns).length = 1 := by omega
    unfold sendToVSCode noTargetSend
    simp [hne, hne1]

/-- Witness instantiating `sendToVSCode_case_analysis` on concrete
connection sets (zero, one and two connected workspaces). -/
theorem sendToVSCode_case_analysis_witness :
    sendToVSCode [] none = ⟨.fail, [], ["Not connected to VSCode"]⟩ ∧
    sendToVSCode connsOne none = ⟨.ok, [9765], []⟩ ∧
    sendToVSCode connsTwo none = ⟨.multiple, [], []⟩ :=
  ⟨(sendToVSCode_case_analysis []).1 rfl none,
   (sendToVSCode_case_analysis connsOne).2.1 ⟨9765, "api", "/w/api"⟩ rfl,
   (sendToVSCode_case_analysis connsTwo).2.2 (by decide)⟩

/-- C10: an explicit target port whose connection is not currently open
makes `sendToVSCode` return a failure and write the frame to no endpoint at
all, never falling back to another connected endpoint. -/
theorem sendToVSCode_explicit_target_no_fallback (conns : Connections) (tp : Nat)
    (htp : tp ≠ 0)
    (hclosed : ∀ c, lookupConn conns tp = some c → c.readyState ≠ wsOPEN) :
    (sendToVSCode conns (some tp)).outcome = .fail ∧
    (sendToVSCode conns (some tp)).sent = [] := by
  unfold sendToVSCode
  by_cases h0 : (getConnectedWorkspaces conns).length = 0
  · simp [h0]
  · cases hc : lookupConn conns tp with
    | none => simp [h0, htp, hc]
    | some c =>
      have hno := hclosed c hc
      simp [h0, htp, hc, hno]

/-- Witness instantiating `sendToVSCode_explicit_target_no_fallback`: the
target 9766 is registered but not OPEN while 9765 is connected; nothing is
sent anywhere. -/
theorem sendToVSCode_explicit_target_no_fallback_witness :
    (getConnectedWorkspaces connsC10).length = 1 ∧
    (sendToVSCode connsC10 (some 9766)).outcome = .fail ∧
    (sendToVSCode connsC10 (some 9766)).sent = [] := by
  refine ⟨by decide, ?_⟩
  refine sendToVSCode_explicit_target_no_fallback connsC10 9766 (by decide) ?_
  intro c hc
  rw [show lookupConn connsC10 9766 = some ⟨2, some ⟨"api", "/w/api"⟩, true⟩ from rfl] at hc
  cases hc
  decide

theorem lookupPending_none (l : List (Nat × String)) (R id : Nat)
    (hl : ∀ p ∈ l, R < p.1) (hid : id ≤ R) : lookupPending l id = none := by
  unfold lookupPending
  rw [List.find?_eq_none.mpr]
  · rfl
  · intro p hp
    have := hl p hp
    simp only [beq_iff_eq]
    omega

theorem hiddenInv_step (R : Nat) (t : GrabState) (e : GEvent)
    (hI : hiddenInv R t) (he : staleOnly R e) : hiddenInv R (stepG t e) := by
  obtain ⟨hov, hR, hp⟩ := hI
  cases e with
  | activate =>
    simp only [stepG, activateGrabMode]
    by_cases hg : t.isGrabMode
    · rw [if_pos hg]; exact ⟨hov, hR, hp⟩
    · rw [if_neg hg]
      refine ⟨by simp [updateHoverElement, hov], by simp [updateHoverElement]; omega, ?_⟩
      intro p hpm
      simp only [updateHoverElement, if_true] at hpm
      simp only [List.mem_append, List.mem_singleton] at hpm
      rcases hpm with h1 | h2
      · exact hp p h1
      · subst h2; simp; omega
  | mouseMove x y =>
    simp only [stepG, handleMouseMove]
    by_cases hg : t.isGrabMode
    · simp only [hg, if_true]
      refine ⟨by simp [updateHoverElement, hov], by simp [updateHoverElement]; omega, ?_⟩
      intro p hpm
      simp only [updateHoverElement, if_true] at hpm
      simp only [List.mem_append, List.mem_singleton] at hpm
      rcases hpm with h1 | h2
      · exact hp p h1
      · subst h2; simp; omega
    · simp only [hg, Bool.false_eq_true, if_false]
      exact ⟨hov, hR, hp⟩
  | escapeKey =>
    simp only [stepG, handleEscapeKey, deactivateGrabMode]
    by_cases hg : t.isGrabMode
    · rw [if_pos hg, if_pos hg]
      exact ⟨rfl, hR, by simp⟩
    · rw [if_neg hg]
      exact ⟨hov, hR, hp⟩
  | windowBlur =>
    simp only [stepG, handleWindowBlur, deactivateGrabMode]
    by_cases hg : t.isGrabMode
    · rw [if_pos hg]
      exact ⟨rfl, hR, by simp⟩
    · rw [if_neg hg]
      exact ⟨hov, hR, hp⟩
  | click =>
    simp only [stepG, handleClick]
    by_cases hg : t.isGrabMode
    · rw [if_pos hg]
      cases t.currentContext with
      | some c =>
        simp only [deactivateGrabMode, if_pos hg]
        exact ⟨rfl, hR, by simp⟩
      | none => exact ⟨hov, hR, hp⟩
    · rw [if_neg hg]
      exact ⟨hov, hR, hp⟩
  | elementFound id ctx rect =>
    simp only [stepG, handleElementFound]
    have hnone : lookupPending t.pending id = none :=
      lookupPending_none t.pending R id hp (by simpa [staleOnly] using he)
    rw [hnone]
    simp only [show ((none : Option String) == some "hover") = false from rfl, Bool.false_eq_true,
      if_false]
    exact ⟨hov, hR, hp⟩
  | elementNotFound id =>
    simp only [stepG, handleElementNotFound]
    by_cases hl : lookupPending t.pending id == some "hover"
    · rw [if_pos hl]
      refine ⟨rfl, hR, ?_⟩
      intro p hpm
      exact hp p (List.mem_of_mem_filter hpm)
    · rw [if_neg hl]
      exact ⟨hov, hR, hp⟩

theorem hiddenInv_run (R : Nat) :
    ∀ (evs : List GEvent) (t : GrabState), hiddenInv R t → (∀ e ∈ evs, staleOnly R e) →
      hiddenInv R (runG t evs)
  | [], _, hI, _ => hI
  | e :: es, t, hI, hevs =>
    hiddenInv_run R es (stepG t e)
      (hiddenInv_step R t e hI (hevs e (List.mem_cons_self e es)))
      (fun e' he' => hevs e' (List.mem_cons_of_mem e he'))

/-- C5: after an escape-key or window-blur event while armed, the overlay
(highlight box and label) is hidden synchronously, and it stays hidden
under any further event sequence in which the only hover responses are for
requests issued no later than cancellation time — that is, none of the
resolutions in flight at cancellation can ever repaint it, regardless of
how many were pending. -/
theorem cancellation_clears_overlay (s : GrabState) (harm : s.isGrabMode = true)
    (evs : List GEvent) (hevs : ∀ e ∈ evs, staleOnly s.requestId e) :
    (stepG s .escapeKey).overlay = none ∧
    (runG (stepG s .escapeKey) evs).overlay = none ∧
    (stepG s .windowBlur).overlay = none ∧
    (runG (stepG s .windowBlur) evs).overlay = none := by
  have hesc : stepG s .escapeKey = deactivateGrabMode s := by
    simp [stepG, handleEscapeKey, harm]
  have hblur : stepG s .windowBlur = deactivateGrabMode s := rfl
  have hd : hiddenInv s.requestId (deactivateGrabMode s) := by
    unfold deactivateGrabMode
    rw [if_pos harm]
    exact ⟨rfl, le_refl _, by simp⟩
  rw [hesc, hblur]
  exact ⟨hd.1, (hiddenInv_run s.requestId evs _ hd hevs).1, hd.1,
         (hiddenInv_run s.requestId evs _ hd hevs).1⟩

/-- Witness instantiating `cancellation_clears_overlay`: an armed state
with one pending hover request is cancelled by escape; the late response
for that request (even after re-arming) never shows the overlay. -/
theorem cancellation_clears_overlay_witness :
    (runG initGrabState [.activate]).isGrabMode = true ∧
    (runG (stepG (runG initGrabState [.activate]) .escapeKey)
      [.elementFound 1 ctxA rect0, .activate, .elementFound 1 ctxA rect0]).overlay = none := by
  refine ⟨by decide, ?_⟩
  exact (cancellation_clears_overlay (runG initGrabState [.activate]) (by decide)
    [.elementFound 1 ctxA rect0, .activate, .elementFound 1 ctxA rect0]
    (by decide)).2.1

/-- C4 counterexample: with two hover requests pending (ids 1 and 2), the
response for id 2 paints the overlay; the stale response for id 1 (its id
is below the latest issued id 2) still passes the pending-map guard and
repaints the overlay with its own context, altering visible overlay
state. -/
theorem stale_response_repaints_overlay_cex :
    (runG initGrabState [.activate, .mouseMove 5 5, .elementFound 2 ctxB rect0]).overlay
      = some (rect0, ctxB) ∧
    (runG initGrabState [.activate, .mouseMove 5 5, .elementFound 2 ctxB rect0]).requestId = 2 ∧
    (stepG (runG initGrabState [.activate, .mouseMove 5 5, .elementFound 2 ctxB rect0])
      (.elementFound 1 ctxA rect0)).overlay = some (rect0, ctxA) ∧
    (some (rect0, ctxA) : Option (Rect × Ctx)) ≠ some (rect0, ctxB) := by
  exact ⟨rfl, rfl, rfl, by decide⟩

/-- C4 (amended): a hover response whose request id is not currently in the
pending-request map (because it was already answered, or because
cancellation cleared the map) never alters any state, in particular the
visible overlay; a stale response whose id is still pending, however, does
repaint the overlay (see `stale_response_repaints_overlay_cex`). -/
theorem nonpending_response_is_noop (s : GrabState) (id : Nat) (ctx : Ctx) (rect : Rect)
    (h : lookupPending s.pending id ≠ some "hover") :
    stepG s (.elementFound id ctx rect) = s ∧ stepG s (.elementNotFound id) = s := by
  have hb : (lookupPending s.pending id == some "hover") = false := by
    simpa using h
  constructor
  · simp [stepG, handleElementFound, hb]
  · simp [stepG, handleElementNotFound, hb]

/-- Witness instantiating `nonpending_response_is_noop` at the initial
state and request id 5. -/
theorem nonpending_response_is_noop_witness :
    lookupPending initGrabState.pending 5 ≠ some "hover" ∧
    stepG initGrabState (.elementFound 5 ctxA rect0) = initGrabState ∧
    stepG initGrabState (.elementNotFound 5) = initGrabState :=
  ⟨by decide,
   (nonpending_response_is_noop initGrabState 5 ctxA rect0 (by decide)).1,
   (nonpending_response_is_noop initGrabState 5 ctxA rect0 (by decide)).2⟩

theorem findComponentFiber_eq_find :
    ∀ (f : Fiber) (pred : Fiber → Bool),
      findComponentFiber f pred = (fiberChain f).find? pred
  | .mk ty mp ds none, pred => by
    rw [show findComponentFiber (.mk ty mp ds none) pred
        = (if pred (.mk ty mp ds none) then some (.mk ty mp ds none) else none) from rfl,
       show fiberChain (.mk ty mp ds none) = [.mk ty mp ds none] from rfl]
    by_cases hp : pred (.mk ty mp ds none)
    · rw [if_pos hp, List.find?_cons_of_pos _ hp]
    · rw [if_neg hp, List.find?_cons_of_neg _ hp]
      rfl
  | .mk ty mp ds (some parent), pred => by
    rw [show findComponentFiber (.mk ty mp ds (some parent)) pred
        = (if pred (.mk ty mp ds (some parent)) then some (.mk ty mp ds (some parent))
           else findComponentFiber parent pred) from rfl,
       show fiberChain (.mk ty mp ds (some parent))
        = .mk ty mp ds (some parent) :: fiberChain parent from rfl]
    by_cases hp : pred (.mk ty mp ds (some parent))
    · rw [if_pos hp, List.find?_cons_of_pos _ hp]
    · rw [if_neg hp, List.find?_cons_of_neg _ hp]
      exact findComponentFiber_eq_find parent pred

theorem excluded_not_valid (f : Fiber) (nm : String)
    (hname : getComponentName f = some nm) (hex : nm ∈ EXCLUDED_COMPONENTS) :
    isValidComponent f = false := by
  unfold isValidComponent
  cases hty : f.ty with
  | none => rfl
  | some t =>
    cases t with
    | host tag => rfl
    | fn d n =>
      rw [hname]
      simp
      intro hmem
      exact absurd hex hmem
    | obj d r i =>
      rw [hname]
      simp
      intro hmem
      exact absurd hex hmem

theorem fiberChain_eq_cons_tail (f : Fiber) : fiberChain f = f :: fiberTail f := by
  cases f with
  | mk ty mp ds ret => cases ret <;> rfl

/-- C7: when the record immediately owning the DOM node resolves to an
excluded framework-internal construct name (e.g., Fragment) and some record
higher up the ancestor chain passes the validity predicate, resolution
returns a record that passes the validity predicate and lies strictly above
the starting record — never the excluded construct itself. -/
theorem excluded_owner_resolves_to_ancestor (f : Fiber) (nm : String)
    (hname : getComponentName f = some nm) (hex : nm ∈ EXCLUDED_COMPONENTS)
    (g : Fiber) (hg : g ∈ fiberTail f) (hvalid : isValidComponent g = true) :
    ∃ r, findComponentFiber f isValidComponent = some r ∧
         isValidComponent r = true ∧ r ∈ fiberTail f := by
  have hnv := excluded_not_valid f nm hname hex
  rw [findComponentFiber_eq_find, fiberChain_eq_cons_tail,
    List.find?_cons_of_neg _ (by simp [hnv])]
  have hsome : ((fiberTail f).find? isValidComponent).isSome := by
    rw [List.find?_isSome]
    exact ⟨g, hg, hvalid⟩
  obtain ⟨r, hr⟩ := Option.isSome_iff_exists.mp hsome
  exact ⟨r, hr, List.find?_some hr, List.mem_of_find?_eq_some hr⟩

/-- Witness instantiating `excluded_owner_resolves_to_ancestor`: a
Fragment-named fiber whose parent is the valid UserCard fiber. -/
theorem excluded_owner_resolves_to_ancestor_witness :
    getComponentName fragmentFiber = some "Fragment" ∧
    isValidComponent userCardFiber = true ∧
    ∃ r, findComponentFiber fragmentFiber isValidComponent = some r ∧
         isValidComponent r = true ∧ r ∈ fiberTail fragmentFiber := by
  refine ⟨rfl, by decide, ?_⟩
  exact excluded_owner_resolves_to_ancestor fragmentFiber "Fragment" rfl (by decide)
    userCardFiber
    (by rw [show fiberTail fragmentFiber = [userCardFiber] from rfl]
        exact List.mem_singleton_self _)
    (by decide)

/-- C8: a DOM node none of whose enumerated property keys carries a
recognized internal-tree attachment marker resolves to "not found" (null),
both at the fiber-lookup layer and for the whole `getComponentInfo`
resolution; the model functions are total, so no exception can escape. -/
theorem resolver_no_attachment_not_found (h : Heap) (el : PageElement)
    (hk : ∀ kv ∈ el.props, ∀ p ∈ FIBER_PREFIXES, jsStartsWith kv.1 p = false) :
    getFiberFromElement (some el) = none ∧ getComponentInfo h (some el) = none := by
  have hfind : el.props.find?
      (fun kv => FIBER_PREFIXES.any (fun p => jsStartsWith kv.1 p)) = none := by
    rw [List.find?_eq_none]
    intro kv hkv hany
    rw [List.any_eq_true] at hany
    obtain ⟨p, hp, hsw⟩ := hany
    rw [hk kv hkv p hp] at hsw
    cases hsw
  have h1 : getFiberFromElement (some el) = none := by
    show (match el.props.find?
        (fun kv => FIBER_PREFIXES.any (fun p => jsStartsWith kv.1 p)) with
      | some kv => kv.2
      | none => none) = none
    rw [hfind]
  refine ⟨h1, ?_⟩
  unfold getComponentInfo
  rw [h1]

/-- Witness instantiating `resolver_no_attachment_not_found` on an element
with ordinary keys only. -/
theorem resolver_no_attachment_not_found_witness :
    (∀ kv ∈ plainElement.props, ∀ p ∈ FIBER_PREFIXES, jsStartsWith kv.1 p = false) ∧
    getFiberFromElement (some plainElement) = none ∧
    getComponentInfo hC6 (some plainElement) = none :=
  ⟨by decide,
   (resolver_no_attachment_not_found hC6 plainElement (by decide)).1,
   (resolver_no_attachment_not_found hC6 plainElement (by decide)).2⟩

/-- C9: evaluating the connection lifecycle at the failing input.  The
polling timer calls `connectToPort(9765)` twice while the first attempt is
still CONNECTING (its `onopen` has not fired, so the `connections` map does
not contain the port); the `connections.has(port)` guard cannot see the
in-progress handle and a second live WebSocket is constructed: two live
handles for one port, refuting the claimed at-most-one-live-handle-per-port
invariant over reachable states. -/
theorem duplicate_connection_handles_cex :
    liveHandleCount (runRelay relayInit [.attempt 9765, .attempt 9765]) 9765 = 2 ∧
    1 < liveHandleCount (runRelay relayInit [.attempt 9765, .attempt 9765]) 9765 :=
  ⟨rfl, by decide⟩
